import Mathlib

/-!
Verification of the reconciliation core of `vite-plugin-localcaddy`
(file `src/mod.ts`), shallowly embedded in Lean 4.

The embedding models:
* the slug/domain resolver (`slugFromFolder`, `slugFromPkg`, `computeDomain`);
* the Caddy route data model (`CaddyRoute`), route lookup
  (`findRouteByHost`), upstream-port extraction (`extractUpstreamPort`)
  and route construction (`routeFor`, shared by `addRoute` and
  `replaceRouteAt`);
* the remote configuration tree (`Config`) and the bootstrap state machine
  (`ensureCaddyServerExists` / `ensureTlsPolicyStep`), with the admin API's
  GET-succeeds-iff-path-exists discipline expressed through `Option` fields;
* the route-reconciliation phase of `wireDomain` (`wireRoutes`);
* the HTTP read/write primitives `get` and `req` as functions of the
  remote's response;
* the one-shot resolution logic of `isPortActive` as a small event
  transition system.

Filesystem access, console output and the actual network transport are
environment glue and enter the model only as explicit inputs (folder name,
package name, HTTP response, probe event order).  Remote array writes
follow the client's documented intent: `PUT routes/0` inserts at the
front, `POST` appends, and `replaceRouteAt`'s `PUT routes/{i}` overwrites
the route at position `i`.
-/

namespace LocalCaddy

/-! ## Generic list helpers -/

/-- Deduplication with JavaScript `Set` semantics, keeping the first
occurrence of each element in insertion order; `seen` holds the elements
already emitted. -/
def jsDedupAux (seen : List String) : List String → List String
  | [] => []
  | a :: l =>
    if a ∈ seen then jsDedupAux seen l
    else a :: jsDedupAux (a :: seen) l

/-- Deduplication with JavaScript `Set` semantics: the first occurrence of
each element is kept, in insertion order.  Models
`Array.from(new Set(l))` (src/mod.ts line 528). -/
def jsDedup (l : List String) : List String :=
  jsDedupAux [] l

/-- Elementwise array comparison, translated from `arraysEqual`
(src/mod.ts lines 331-337). -/
def arraysEqual (a b : List String) : Bool :=
  a.length == b.length && (a.zip b).all (fun p => p.1 == p.2)

/-- Update an association list at a key: overwrite the value if the key is
present, append a new entry otherwise.  Models a JSON-object `PUT` at
`/config/apps/http/servers/{id}`. -/
def setAssoc {β : Type} (m : List (String × β)) (k : String) (v : β) :
    List (String × β) :=
  if m.any (fun p => p.1 == k) then
    m.map (fun p => if p.1 == k then (k, v) else p)
  else m ++ [(k, v)]

/-! ## Slug / domain resolver (src/mod.ts lines 137-212) -/

/-- Character class `[a-z0-9-]` of the slugging regexes. -/
def isSlugChar (c : Char) : Bool :=
  ('a' ≤ c && c ≤ 'z') || ('0' ≤ c && c ≤ '9') || c == '-'

/-- Global replacement of `/[^a-z0-9-]+/g` by `"-"`: each maximal run of
characters outside the class becomes a single hyphen.  The flag records
whether we are currently inside such a run (its hyphen already emitted). -/
def collapse (inBad : Bool) : List Char → List Char
  | [] => []
  | c :: cs =>
    if isSlugChar c then c :: collapse false cs
    else if inBad then collapse true cs
    else '-' :: collapse true cs

/-- Global replacement of `/^-+|-+$/g` by `""`: strip leading and trailing
hyphen runs. -/
def stripHyphens (cs : List Char) : List Char :=
  (cs.dropWhile (fun c => c == '-')).rdropWhile (fun c => c == '-')

/-- Slug of a folder name, translated from `slugFromFolder`
(src/mod.ts lines 137-143).  The `basename(cwd)` filesystem step is glue;
the folder (base) name itself is the input.  Case mapping is modeled with
`Char.toLower`, which agrees with JavaScript `toLowerCase` on ASCII. -/
def slugFromFolder (folderName : String) : String :=
  ⟨stripHyphens (collapse false (folderName.data.map Char.toLower))⟩

/-- Environment inputs of the resolver: the current folder's base name and
the `package.json` `"name"` field when it is readable and a string. -/
structure DomainEnv where
  folderName : String
  pkgName : Option String
deriving DecidableEq

/-- Slug from the package manifest, translated from `slugFromPkg`
(src/mod.ts lines 164-178): an unreadable manifest or a non-string name
falls back to the folder slug. -/
def slugFromPkg (env : DomainEnv) : String :=
  match env.pkgName with
  | some n => ⟨stripHyphens (collapse false (n.data.map Char.toLower))⟩
  | none => slugFromFolder env.folderName

/-- Name-source selector of the options (`'folder' | 'pkg'`). -/
inductive NameSource where
  | folder
  | pkg
deriving DecidableEq

/-- Domain computation, translated from `computeDomain`
(src/mod.ts lines 200-212).  The source tests `if (options.domain)`, a
JavaScript truthiness check, so an empty-string domain falls through to
the slug path; `nameSource` and `tld` use nullish defaulting. -/
def computeDomain (dom : Option String) (nameSource : Option NameSource)
    (tld : Option String) (env : DomainEnv) : String :=
  let build : String :=
    let base :=
      match nameSource.getD .folder with
      | .pkg => slugFromPkg env
      | .folder => slugFromFolder env.folderName
    base ++ "." ++ tld.getD "localhost"
  match dom with
  | some d => if d = "" then build else d
  | none => build

/-! ## Route data model (src/mod.ts lines 104-115) -/

/-- Upstream of a reverse-proxy handler (`{ dial: string }`). -/
structure Upstream where
  dial : String
deriving DecidableEq

/-- Route handler (`{ handler: string, upstreams?: ... }`). -/
structure RouteHandler where
  handler : String
  upstreams : Option (List Upstream)
deriving DecidableEq

/-- Match condition of a route (`{ host?: string[] }`). -/
structure MatchCond where
  host : Option (List String)
deriving DecidableEq

/-- Caddy route (`CaddyRoute` in the source).  The JSON field `match` is
called `matchers` here because `match` is a Lean keyword. -/
structure CaddyRoute where
  matchers : Option (List MatchCond)
  handle : Option (List RouteHandler)
  terminal : Option Bool
deriving DecidableEq

/-- Route lookup, translated from `findRouteByHost`
(src/mod.ts lines 234-250): scan routes in order and return the first one
whose match-condition host list contains the host, with its index.  The
source's `{route: undefined, index: -1}` not-found sentinel is encoded as
`none`. -/
def findRouteByHost (routes : Option (List CaddyRoute)) (host : String) :
    Option (Nat × CaddyRoute) :=
  match routes with
  | none => none
  | some rs => go rs 0
where
  go : List CaddyRoute → Nat → Option (Nat × CaddyRoute)
    | [], _ => none
    | r :: rest, i =>
      if (r.matchers.getD []).any (fun m => (m.host.getD []).contains host)
      then some (i, r)
      else go rest (i + 1)

/-- Decimal value of a digit string, as computed by JavaScript
`Number(...)` on the regex capture (digits only, leading zeros allowed). -/
def digitsVal (ds : List Char) : Nat :=
  ds.foldl (fun a c => a * 10 + (c.toNat - 48)) 0

/-- JavaScript `String.prototype.trim`: drop whitespace from both ends. -/
def jsTrim (cs : List Char) : List Char :=
  (cs.dropWhile Char.isWhitespace).rdropWhile Char.isWhitespace

/-- Core of the trailing-port regex on the reversed character list: a
nonempty run of digits at the end (the head of the reversal), preceded by
a colon. -/
def parsePortFrom (r : List Char) : Option Nat :=
  if r.takeWhile Char.isDigit ≠ []
      ∧ (r.drop (r.takeWhile Char.isDigit).length).head? = some ':' then
    some (digitsVal (r.takeWhile Char.isDigit).reverse)
  else none

/-- Trailing-port parser: the regex `/:(\d+)$/` applied to the trimmed
dial string, followed by `Number` on the capture
(src/mod.ts line 279-280). -/
def parseTrailingPort (s : String) : Option Nat :=
  parsePortFrom (jsTrim s.data).reverse

/-- Upstream-port extraction, translated from `extractUpstreamPort`
(src/mod.ts lines 271-286): scan handlers in order; for each
`reverse_proxy` handler with a nonempty upstream list and a truthy (i.e.
nonempty) first dial string, try the trailing-port regex; return the
first parsed port, or `none` if the scan exhausts the handlers. -/
def extractLoop : List RouteHandler → Option Nat
  | [] => none
  | h :: hs =>
    if h.handler == "reverse_proxy" then
      match h.upstreams with
      | some (u :: _) =>
        match (if u.dial == "" then none else parseTrailingPort u.dial) with
        | some n => some n
        | none => extractLoop hs
      | _ => extractLoop hs
    else extractLoop hs

/-- Port of the first parseable reverse-proxy upstream of a route. -/
def extractUpstreamPort (r : CaddyRoute) : Option Nat :=
  extractLoop (r.handle.getD [])

/-- Route built by both `addRoute` (src/mod.ts lines 608-618) and
`replaceRouteAt` (lines 634-643): single host matcher for the domain, one
reverse-proxy handler dialing `127.0.0.1:{port}`, terminal. -/
def routeFor (domain : String) (port : Nat) : CaddyRoute :=
  { matchers := some [{ host := some [domain] }]
    handle := some [{ handler := "reverse_proxy"
                      upstreams := some [{ dial := "127.0.0.1:" ++ toString port }] }]
    terminal := some true }

/-! ## Remote configuration tree

The admin API is a JSON tree addressed by path; a `GET` succeeds exactly
when every segment of the path exists.  Absent subtrees are `none`.  The
tree below mirrors the paths the bootstrap touches
(src/mod.ts lines 472-598). -/

/-- TLS issuer (`{ module?: string }`). -/
structure TlsIssuer where
  module : Option String
deriving DecidableEq

/-- TLS automation policy (`{ subjects?: string[], issuers?: ... }`). -/
structure TlsPolicy where
  subjects : Option (List String)
  issuers : Option (List TlsIssuer)
deriving DecidableEq

/-- TLS automation container (`{ policies?: ... }`). -/
structure TlsAutomation where
  policies : Option (List TlsPolicy)
deriving DecidableEq

/-- TLS app (`{ automation?: ... }`). -/
structure TlsApp where
  automation : Option TlsAutomation
deriving DecidableEq

/-- Automatic-HTTPS settings of a server (`{ disable?: boolean }`). -/
structure AutomaticHttps where
  disable : Option Bool
deriving DecidableEq

/-- HTTP server entry (`{ listen?: string[], routes?: ..., automatic_https?: ... }`). -/
structure CaddyServer where
  listen : Option (List String)
  routes : Option (List CaddyRoute)
  automaticHttps : Option AutomaticHttps
deriving DecidableEq

/-- HTTP app (`{ servers?: { [id]: server } }`), the object modeled as an
association list with unique keys in insertion order. -/
structure HttpApp where
  servers : Option (List (String × CaddyServer))
deriving DecidableEq

/-- Apps container (`{ http?: ..., tls?: ... }`). -/
structure Apps where
  http : Option HttpApp
  tls : Option TlsApp
deriving DecidableEq

/-- Root of the configuration tree (`{ apps?: ... }`).  A `null` root is
represented as `none : Option Config` at the call sites. -/
structure Config where
  apps : Option Apps
deriving DecidableEq

/-- Path read `GET /config/apps/http/servers/{id}`: succeeds iff every
segment exists. -/
def getServer (c : Config) (id : String) : Option CaddyServer :=
  ((c.apps.bind (·.http)).bind (·.servers)).bind (fun m => m.lookup id)

/-- Path read of the TLS app. -/
def getTls (c : Config) : Option TlsApp :=
  c.apps.bind (·.tls)

/-- Path read of the TLS automation container. -/
def getAutomation (c : Config) : Option TlsAutomation :=
  (getTls c).bind (·.automation)

/-- Path read `GET /config/apps/tls/automation/policies`. -/
def getPolicies (c : Config) : Option (List TlsPolicy) :=
  (getAutomation c).bind (·.policies)

/-- Rewrite the `apps` subtree in place (no-op when it is absent; the
client only writes below `apps` after ensuring it exists). -/
def modifyApps (c : Config) (f : Apps → Apps) : Config :=
  { c with apps := c.apps.map f }

/-- Write `PUT /config/apps/http/servers/{id}` (parents exist by flow). -/
def putServer (c : Config) (id : String) (srv : CaddyServer) : Config :=
  modifyApps c (fun a =>
    { a with http := a.http.map (fun h =>
        { h with servers := some (setAssoc (h.servers.getD []) id srv) }) })

/-- Write at a subpath of an existing server entry
(`PUT .../servers/{id}/listen` etc.). -/
def modifyServer (c : Config) (id : String) (f : CaddyServer → CaddyServer) :
    Config :=
  modifyApps c (fun a =>
    { a with http := a.http.map (fun h =>
        { h with servers := h.servers.map (fun m =>
            m.map (fun p => if p.1 == id then (p.1, f p.2) else p)) }) })

/-- Write `PUT /config/apps/tls`. -/
def putTls (c : Config) (t : TlsApp) : Config :=
  modifyApps c (fun a => { a with tls := some t })

/-- Write at a subpath of the existing TLS app. -/
def modifyTls (c : Config) (f : TlsApp → TlsApp) : Config :=
  modifyApps c (fun a => { a with tls := a.tls.map f })

/-- Write `PUT /config/apps/tls/automation`. -/
def putAutomation (c : Config) (au : TlsAutomation) : Config :=
  modifyTls c (fun t => { t with automation := some au })

/-- Write the policies array (`PUT`/`POST` at
`/config/apps/tls/automation/policies`). -/
def putPolicies (c : Config) (ps : List TlsPolicy) : Config :=
  modifyTls c (fun t =>
    { t with automation := t.automation.map (fun au =>
        { au with policies := some ps }) })

/-- Effective options the bootstrap reads (`opt.serverId`, `opt.listen`). -/
structure Opts where
  serverId : String
  listen : List String
deriving DecidableEq

/-- Policy freshly created for a domain
(src/mod.ts lines 590-593 and 488-493). -/
def newTlsPolicy (domain : String) : TlsPolicy :=
  { subjects := some [domain], issuers := some [{ module := some "internal" }] }

/-- Predicate of the `findIndex` search (src/mod.ts lines 581-587): the
policy's subject list contains the domain and its issuer list has an
`internal` issuer; absent lists (`Array.isArray` fails) do not match. -/
def policyCovers (domain : String) (p : TlsPolicy) : Bool :=
  match p.subjects, p.issuers with
  | some ss, some is =>
    ss.contains domain && is.any (fun i => i.module == some "internal")
  | _, _ => false

/-- Configuration seeded by `POST /load` when the root config is null
(src/mod.ts lines 476-497). -/
def seedConfig (o : Opts) (domain : String) : Config :=
  let srv : CaddyServer :=
    { listen := some o.listen, routes := some [], automaticHttps := none }
  let tls : TlsApp :=
    { automation := some { policies := some [newTlsPolicy domain] } }
  { apps := some { http := some { servers := some [(o.serverId, srv)] }
                   tls := some tls } }

/-- Parent-path creation plus server creation
(src/mod.ts lines 513-521): `ensurePath` writes an empty placeholder when
a `GET` on the path fails, then the server object itself is written with
the desired listen addresses and an empty route list. -/
def createServerPath (o : Opts) (c : Config) : Config :=
  let c := if c.apps = none then { c with apps := some { http := none, tls := none } }
           else c
  let c := modifyApps c (fun a =>
    if a.http = none then { a with http := some { servers := some [] } } else a)
  let c := modifyApps c (fun a =>
    { a with http := a.http.map (fun h =>
        if h.servers = none then { h with servers := some [] } else h) })
  putServer c o.serverId
    { listen := some o.listen, routes := some [], automaticHttps := none }

/-- Listen merge of an existing server (src/mod.ts lines 525-532):
`next = Array.from(new Set([...(current ?? []), ...new Set(opt.listen)]))`,
written back only when it differs elementwise from `current ?? []`. -/
def nextListen (current : Option (List String)) (want : List String) :
    List String :=
  jsDedup (current.getD [] ++ jsDedup want)

/-- Automatic-HTTPS refresh (src/mod.ts lines 534-542): when the flag
read from the existing server was explicitly disabled, `PUT` back
`{...auto, disable: false}`. -/
def refreshAuto (o : Opts) (c : Config) (srv : CaddyServer) : Config :=
  match srv.automaticHttps with
  | some a =>
    if a.disable = some true then
      modifyServer c o.serverId
        (fun s => { s with automaticHttps := some { a with disable := some false } })
    else c
  | none => c

/-- Existing-server refresh (src/mod.ts lines 523-542): merge listen
addresses (written back only when the merge changed them), then
re-enable automatic HTTPS when it was explicitly disabled. -/
def refreshServer (o : Opts) (c : Config) (srv : CaddyServer) : Config :=
  refreshAuto o
    (if arraysEqual (srv.listen.getD []) (nextListen srv.listen o.listen)
     then c
     else modifyServer c o.serverId
       (fun s => { s with listen := some (nextListen srv.listen o.listen) }))
    srv

/-- Explicit shape of a server entry after `refreshServer`: listen merged
(written only on change), routes untouched, a disabled automatic-HTTPS
flag cleared.  Used as the witness in the proofs below. -/
def refreshedServer (o : Opts) (srv : CaddyServer) : CaddyServer :=
  { listen := if arraysEqual (srv.listen.getD []) (nextListen srv.listen o.listen)
              then srv.listen else some (nextListen srv.listen o.listen)
    routes := srv.routes
    automaticHttps :=
      match srv.automaticHttps with
      | some a => if a.disable = some true
                  then some { a with disable := some false }
                  else some a
      | none => none }

/-- Container phase of `ensureTlsPolicy` (src/mod.ts lines 550-571):
ensure the `apps`, `tls`, `automation` and `policies` containers exist,
each created empty only when a `GET` on its path fails.  The inner
`none` case of the re-read is unreachable along the flow (the container
was just ensured). -/
def ensureTlsContainers (c : Config) : Config :=
  let c := if c.apps = none then { c with apps := some { http := none, tls := none } }
           else c
  match getTls c with
  | none => putTls c { automation := some { policies := some [] } }
  | some t =>
    let c := if t.automation = none then putAutomation c { policies := some [] }
             else c
    match getAutomation c with
    | some au => if au.policies = none then putPolicies c [] else c
    | none => c

/-- Policy phase of `ensureTlsPolicy` (src/mod.ts lines 573-597): read
the policies array (`?? []`), search it with the `findIndex` predicate,
and append the fresh internal-issuer policy if nothing covers the
domain (`POST` appends to the array). -/
def ensureTlsAppend (domain : String) (c : Config) : Config :=
  if ((getPolicies c).getD []).any (policyCovers domain) then c
  else putPolicies c ((getPolicies c).getD [] ++ [newTlsPolicy domain])

/-- TLS-policy bootstrap, translated from `ensureTlsPolicy`
(src/mod.ts lines 549-598): ensure the containers exist
(non-destructively), then append a fresh internal-issuer policy for the
domain unless one already covers it. -/
def ensureTlsPolicyStep (domain : String) (c : Config) : Config :=
  ensureTlsAppend domain (ensureTlsContainers c)

/-- Bootstrap entry point, translated from `ensureCaddyServerExists`
(src/mod.ts lines 472-547): a null root is seeded in one write and the
function returns; otherwise the server is created or refreshed and
`ensureTlsPolicy` runs. -/
def ensureCaddyServerExists (o : Opts) (domain : String)
    (root : Option Config) : Config :=
  match root with
  | none => seedConfig o domain
  | some c =>
    ensureTlsPolicyStep domain
      (match getServer c o.serverId with
       | none => createServerPath o c
       | some srv => refreshServer o c srv)

/-! ## Route reconciliation (src/mod.ts lines 676-742)

`wireRoutes` models the route-management phase of `wireDomain`, from the
`getRoutes()` read (line 697) to the end of the function: the bootstrap
prefix is `ensureCaddyServerExists` above, the hosts-file check is
advisory glue, and the Vite port has already been determined (the source
throws at line 686 otherwise).  Port liveness is supplied as an oracle
`alive : Nat → Bool` (the awaited result of `isPortActive`). -/

/-- Outcome of the reconciliation phase.  `wired` means the flow reached
`printWhereToBrowse`; `conflictWarn` is the permissive-policy warning
return (line 733-734); `exitProcess code` models the fail-fast branch
(lines 725-731), which logs the conflict, best-effort closes the Vite
server and calls `Deno.exit(1)` — it terminates the hosting process and
returns nothing to the caller. -/
inductive WireResult where
  | wired
  | conflictWarn
  | exitProcess (code : Nat)
deriving DecidableEq

/-- Route insertion by `addRoute` (src/mod.ts lines 620-627):
`PUT routes/0` inserts at the front when `insertFirst` is set, `POST`
appends otherwise. -/
def insertRoute (insertFirst : Bool) (rs : List CaddyRoute) (r : CaddyRoute) :
    List CaddyRoute :=
  if insertFirst then r :: rs else rs ++ [r]

/-- Route-reconciliation phase of `wireDomain`
(src/mod.ts lines 697-742).  Returns the outcome together with the final
route list of the managed server.  The source's `if (!existingPort)` is a
JavaScript truthiness test, so an extracted port `0` also takes the
replace-unusable-route branch. -/
def wireRoutes (failOnActiveDomain insertFirst : Bool) (alive : Nat → Bool)
    (domain : String) (vitePort : Nat) (routes : Option (List CaddyRoute)) :
    WireResult × List CaddyRoute :=
  let rs := routes.getD []
  match findRouteByHost routes domain with
  | none => (.wired, insertRoute insertFirst rs (routeFor domain vitePort))
  | some (index, route) =>
    match extractUpstreamPort route with
    | none => (.wired, rs.set index (routeFor domain vitePort))
    | some existingPort =>
      if existingPort = 0 then
        (.wired, rs.set index (routeFor domain vitePort))
      else if alive existingPort then
        if existingPort = vitePort then (.wired, rs)
        else if failOnActiveDomain then (.exitProcess 1, rs)
        else (.conflictWarn, rs)
      else if existingPort ≠ vitePort then
        (.wired, rs.set index (routeFor domain vitePort))
      else (.wired, rs)

/-! ## Admin API primitives (src/mod.ts lines 421-451)

The transport is glue; the primitives are modeled as functions of the
`Response` the remote produced.  JSON decoding is abstracted: a nonempty
body stands for its parsed JSON value, carried as the raw text (the
claims under verification only depend on presence/absence and on the
error text, not on the JSON grammar). -/

/-- The parts of a `fetch` `Response` the primitives read. -/
structure HttpResponse where
  status : Nat
  statusText : String
  body : String
deriving DecidableEq

/-- The `Response.ok` accessor: status in the inclusive range 200-299. -/
def respOk (r : HttpResponse) : Bool :=
  200 ≤ r.status && r.status ≤ 299

/-- Decoded value of a response body: an empty body is the absent
sentinel (`undefined`), a nonempty body is the (abstracted) JSON value. -/
def decodeBody (txt : String) : Option String :=
  if txt = "" then none else some txt

/-- Error text thrown by `req` (src/mod.ts lines 425-427):
`` `HTTP ${r.status} ${r.statusText} for ${url}\n${txt}` ``. -/
def reqErrorText (url : String) (r : HttpResponse) : String :=
  "HTTP " ++ toString r.status ++ " " ++ r.statusText ++ " for " ++ url
    ++ "\n" ++ r.body

/-- Mutating primitive, translated from `req`
(src/mod.ts lines 421-430); `post` and `put` are `req` with a method and
an encoded body in the request `init`.  The method reaches the model as
a parameter because the claim under review says the raised error captures
it; the source only threads it into the transport call. -/
def reqFn (method url : String) (r : HttpResponse) :
    Except String (Option String) :=
  if respOk r then .ok (decodeBody r.body)
  else .error (reqErrorText url r)

/-- Read primitive, translated from `get` (src/mod.ts lines 432-437): a
non-success status yields the absent sentinel before the body is read. -/
def getFn (url : String) (r : HttpResponse) : Except String (Option String) :=
  if respOk r then .ok (decodeBody r.body) else .ok none

/-! ## Port liveness probe (src/mod.ts lines 358-387)

`isPortActive` races a TCP connection attempt against a timer, both
feeding the single-resolution helper `done` guarded by the `resolved`
flag.  The environment's contribution is the order in which the timer
callback and the connection `then`/`catch` callbacks run; a run of the
probe is a sequence of these events (each source can fire at most once,
but the theorems do not even need that restriction).  The executor never
invokes `reject`: the `catch` handler converts every connection error to
`done(false)`, so the model has no rejected outcome at all. -/

/-- Callback events of a probe run: the timeout fires, the connection
attempt succeeds, or it fails. -/
inductive ProbeEv where
  | timerFire
  | connOk
  | connErr
deriving DecidableEq

/-- Observable state of one `isPortActive` promise. -/
structure ProbeState where
  resolved : Bool
  result : Option Bool
  resolveCount : Nat
  connClosed : Bool
  timerCleared : Bool
  aborted : Bool
deriving DecidableEq

/-- State before any callback has run. -/
def probeInit : ProbeState :=
  { resolved := false, result := none, resolveCount := 0
    connClosed := false, timerCleared := false, aborted := false }

/-- The `done` helper (src/mod.ts lines 367-372): resolve with `val`
unless already resolved, and abort the other party. -/
def probeDone (val : Bool) (s : ProbeState) : ProbeState :=
  if s.resolved then s
  else { s with resolved := true, result := some val
                resolveCount := s.resolveCount + 1, aborted := true }

/-- Effect of one callback.  A cleared timer no longer fires; the
connection callbacks first clear the timer (and on success close the
connection), then call `done` (src/mod.ts lines 374-385). -/
def probeStep (s : ProbeState) : ProbeEv → ProbeState
  | .timerFire => if s.timerCleared then s else probeDone false s
  | .connOk => probeDone true { s with timerCleared := true, connClosed := true }
  | .connErr => probeDone false { s with timerCleared := true }

/-- Run of the probe under a given callback interleaving. -/
def runProbe (evs : List ProbeEv) : ProbeState :=
  evs.foldl probeStep probeInit

/-! ## Auxiliary specifications used by the proofs -/

/-- Decimal digit list of a natural number (most significant first); a
structural description of what `Nat.toDigitsCore` computes at base 10. -/
def myDigits (n : Nat) : List Char :=
  if n < 10 then [Nat.digitChar n]
  else myDigits (n / 10) ++ [Nat.digitChar (n % 10)]
decreasing_by
  exact Nat.div_lt_self (by omega) (by omega)

/-- A server entry the bootstrap would leave untouched: its listen merge
is a no-op and automatic HTTPS is not explicitly disabled. -/
def goodServer (w : List String) (srv : CaddyServer) : Prop :=
  nextListen srv.listen w = srv.listen.getD [] ∧
  ∀ a, srv.automaticHttps = some a → a.disable ≠ some true

/-- Post-state invariant of the bootstrap: the managed server exists and
would be left untouched, and a TLS policy covering the domain exists. -/
def bootstrapped (o : Opts) (domain : String) (c : Config) : Prop :=
  (∃ srv, getServer c o.serverId = some srv ∧ goodServer o.listen srv) ∧
  (∃ ps, getPolicies c = some ps ∧ ps.any (policyCovers domain) = true)

/-! ## Helper lemmas: deduplication, array comparison, association lists -/

theorem mem_jsDedupAux (x : String) :
    ∀ (l seen : List String), x ∈ jsDedupAux seen l ↔ x ∈ l ∧ x ∉ seen := by
  intro l
  induction l with
  | nil => intro seen; simp [jsDedupAux]
  | cons a l ih =>
    intro seen
    simp only [jsDedupAux]
    by_cases h : a ∈ seen
    · rw [if_pos h, ih]
      constructor
      · rintro ⟨hx, hs⟩
        exact ⟨List.mem_cons_of_mem _ hx, hs⟩
      · rintro ⟨hx, hs⟩
        rcases List.mem_cons.mp hx with rfl | hx
        · exact absurd h hs
        · exact ⟨hx, hs⟩
    · rw [if_neg h]
      constructor
      · intro hx
        rcases List.mem_cons.mp hx with rfl | hx
        · exact ⟨List.mem_cons_self _ _, h⟩
        · rcases (ih _).mp hx with ⟨h1, h2⟩
          refine ⟨List.mem_cons_of_mem _ h1, fun hs => h2 ?_⟩
          exact List.mem_cons_of_mem _ hs
      · rintro ⟨hx, hs⟩
        rcases List.mem_cons.mp hx with rfl | hx
        · exact List.mem_cons_self _ _
        · by_cases hxa : x = a
          · subst hxa; exact List.mem_cons_self _ _
          · exact List.mem_cons_of_mem _ ((ih _).mpr ⟨hx, by
              intro hmem
              rcases List.mem_cons.mp hmem with h1 | h1
              · exact hxa h1
              · exact hs h1⟩)

theorem mem_jsDedup (x : String) (l : List String) :
    x ∈ jsDedup l ↔ x ∈ l := by
  rw [jsDedup, mem_jsDedupAux]
  simp

theorem nodup_jsDedupAux :
    ∀ (l seen : List String), (jsDedupAux seen l).Nodup := by
  intro l
  induction l with
  | nil => intro seen; simp [jsDedupAux]
  | cons a l ih =>
    intro seen
    simp only [jsDedupAux]
    by_cases h : a ∈ seen
    · rw [if_pos h]; exact ih seen
    · rw [if_neg h]
      refine List.nodup_cons.mpr ⟨fun hmem => ?_, ih _⟩
      exact ((mem_jsDedupAux _ _ _).mp hmem).2 (List.mem_cons_self _ _)

theorem nodup_jsDedup (l : List String) : (jsDedup l).Nodup :=
  nodup_jsDedupAux l []

theorem jsDedupAux_eq_nil (seen : List String) :
    ∀ (m : List String), (∀ x ∈ m, x ∈ seen) → jsDedupAux seen m = [] := by
  intro m
  induction m with
  | nil => intro _; rfl
  | cons b m ih =>
    intro h
    have hb : b ∈ seen := h b (List.mem_cons_self _ _)
    simp only [jsDedupAux, if_pos hb]
    exact ih (fun x hx => h x (List.mem_cons_of_mem _ hx))

theorem jsDedupAux_append_absorb :
    ∀ (l m seen : List String), l.Nodup → (∀ x ∈ l, x ∉ seen) →
      (∀ x ∈ m, x ∈ l ∨ x ∈ seen) → jsDedupAux seen (l ++ m) = l := by
  intro l
  induction l with
  | nil =>
    intro m seen _ _ hm
    simp only [List.nil_append]
    refine jsDedupAux_eq_nil seen m (fun x hx => ?_)
    rcases hm x hx with h | h
    · exact absurd h (List.not_mem_nil x)
    · exact h
  | cons a l ih =>
    intro m seen hnd hseen hm
    have ha : a ∉ seen := hseen a (List.mem_cons_self _ _)
    simp only [List.cons_append, jsDedupAux, if_neg ha]
    have hnd' := List.nodup_cons.mp hnd
    refine congrArg (a :: ·) (ih m (a :: seen) hnd'.2 ?_ ?_)
    · intro x hx hmem
      rcases List.mem_cons.mp hmem with rfl | h
      · exact hnd'.1 hx
      · exact hseen x (List.mem_cons_of_mem _ hx) h
    · intro x hx
      rcases hm x hx with h | h
      · rcases List.mem_cons.mp h with rfl | h
        · exact Or.inr (List.mem_cons_self _ _)
        · exact Or.inl h
      · exact Or.inr (List.mem_cons_of_mem _ h)

/-- Absorption: appending already-present elements and deduplicating a
duplicate-free list is the identity. -/
theorem jsDedup_absorb (l m : List String) (hl : l.Nodup)
    (hm : ∀ x ∈ m, x ∈ l) : jsDedup (l ++ m) = l :=
  jsDedupAux_append_absorb l m [] hl (by simp) (fun x hx => Or.inl (hm x hx))

theorem jsDedup_of_nodup (l : List String) (hl : l.Nodup) : jsDedup l = l := by
  have := jsDedup_absorb l [] hl (by simp)
  simpa using this

theorem arraysEqual_iff :
    ∀ (a b : List String), arraysEqual a b = true ↔ a = b := by
  intro a
  induction a with
  | nil => intro b; cases b <;> simp [arraysEqual]
  | cons x xs ih =>
    intro b
    cases b with
    | nil => simp [arraysEqual]
    | cons y ys =>
      have hih := ih ys
      simp only [arraysEqual, List.length_cons, List.zip_cons_cons,
        List.all_cons, Bool.and_eq_true, beq_iff_eq] at hih ⊢
      constructor
      · rintro ⟨hlen, hxy, hall⟩
        have : xs = ys := hih.mp ⟨by omega, hall⟩
        rw [hxy, this]
      · intro h
        injection h with h1 h2
        subst h1
        subst h2
        rcases hih.mpr rfl with ⟨hl, ha⟩
        exact ⟨by omega, rfl, ha⟩

theorem arraysEqual_self (a : List String) : arraysEqual a a = true :=
  (arraysEqual_iff a a).mpr rfl

theorem lookup_of_not_any {β : Type} (k : String) :
    ∀ (m : List (String × β)), m.any (fun p => p.1 == k) = false →
      m.lookup k = none := by
  intro m
  induction m with
  | nil => intro _; rfl
  | cons p m ih =>
    intro h
    obtain ⟨k', v'⟩ := p
    simp only [List.any_cons, Bool.or_eq_false_iff] at h
    have : (k == k') = false := by
      rcases beq_eq_false_iff_ne.mp h.1 with hne
      exact beq_eq_false_iff_ne.mpr (Ne.symm hne)
    simp [List.lookup, this, ih h.2]

theorem lookup_map_set {β : Type} (k : String) (v : β) :
    ∀ (m : List (String × β)), m.any (fun p => p.1 == k) = true →
      (m.map (fun p => if p.1 == k then (k, v) else p)).lookup k = some v := by
  intro m
  induction m with
  | nil => intro h; simp at h
  | cons p m ih =>
    intro h
    obtain ⟨k', v'⟩ := p
    by_cases hk : k' = k
    · subst hk
      simp only [List.map_cons]
      rw [if_pos (by simp)]
      simp [List.lookup_cons]
    · have hbeq : (k' == k) = false := beq_eq_false_iff_ne.mpr hk
      have hkk : (k == k') = false := beq_eq_false_iff_ne.mpr (Ne.symm hk)
      simp only [List.any_cons, hbeq, Bool.false_or] at h
      simp only [List.map_cons]
      rw [if_neg (by simp [hbeq])]
      rw [List.lookup_cons, hkk]
      exact ih h

/-- Looking up the key just written by `setAssoc` yields the new value. -/
theorem lookup_setAssoc {β : Type} (m : List (String × β)) (k : String)
    (v : β) : (setAssoc m k v).lookup k = some v := by
  unfold setAssoc
  by_cases h : m.any (fun p => p.1 == k) = true
  · rw [if_pos h]
    exact lookup_map_set k v m h
  · rw [if_neg h]
    rw [List.lookup_append, lookup_of_not_any k m (Bool.eq_false_iff.mpr h)]
    simp [List.lookup]

/-- Updating the entry at a key rewrites the looked-up value. -/
theorem lookup_map_update {β : Type} (f : β → β) (k : String) :
    ∀ (m : List (String × β)),
      (m.map (fun p => if p.1 == k then (p.1, f p.2) else p)).lookup k
        = (m.lookup k).map f := by
  intro m
  induction m with
  | nil => rfl
  | cons p m ih =>
    obtain ⟨k', v'⟩ := p
    by_cases hk : k' = k
    · subst hk
      simp only [List.map_cons]
      rw [if_pos (by simp)]
      simp [List.lookup_cons]
    · have hbeq : (k' == k) = false := beq_eq_false_iff_ne.mpr hk
      have hkk : (k == k') = false := beq_eq_false_iff_ne.mpr (Ne.symm hk)
      simp only [List.map_cons]
      rw [if_neg (by simp [hbeq])]
      rw [List.lookup_cons, List.lookup_cons, hkk]
      exact ih

/-! ## Helper lemmas: slugging -/

theorem mem_collapse :
    ∀ (l : List Char) (b : Bool) (c : Char),
      c ∈ collapse b l → isSlugChar c = true := by
  intro l
  induction l with
  | nil => intro b c h; simp [collapse] at h
  | cons x xs ih =>
    intro b c h
    simp only [collapse] at h
    by_cases hx : isSlugChar x = true
    · rw [if_pos hx] at h
      rcases List.mem_cons.mp h with rfl | h
      · exact hx
      · exact ih _ _ h
    · rw [if_neg hx] at h
      cases b with
      | true => exact ih _ _ (by simpa using h)
      | false =>
        simp only [Bool.false_eq_true, if_false] at h
        rcases List.mem_cons.mp h with rfl | h
        · decide
        · exact ih _ _ h

theorem head_dropWhile_not {α : Type} (p : α → Bool) :
    ∀ (l : List α) (a : α), (l.dropWhile p).head? = some a → p a = false := by
  intro l
  induction l with
  | nil => intro a h; simp [List.dropWhile] at h
  | cons x xs ih =>
    intro a h
    rw [List.dropWhile_cons] at h
    by_cases hx : p x = true
    · rw [if_pos hx] at h
      exact ih a h
    · rw [if_neg hx] at h
      simp only [List.head?_cons, Option.some.injEq] at h
      subst h
      exact Bool.eq_false_iff.mpr hx

theorem stripHyphens_subset (cs : List Char) :
    ∀ c ∈ stripHyphens cs, c ∈ cs := by
  intro c hc
  unfold stripHyphens at hc
  have h1 := (List.rdropWhile_prefix (fun c => c == '-')
    (cs.dropWhile (fun c => c == '-'))).sublist.subset hc
  exact (List.dropWhile_sublist _).subset h1

theorem stripHyphens_head (cs : List Char) :
    (stripHyphens cs).head? ≠ some '-' := by
  unfold stripHyphens
  intro h
  obtain ⟨s, hs⟩ := List.rdropWhile_prefix (fun c => c == '-')
    (cs.dropWhile (fun c => c == '-'))
  cases hr : ((cs.dropWhile (fun c => c == '-')).rdropWhile (fun c => c == '-')) with
  | nil => rw [hr] at h; simp at h
  | cons a rest =>
    rw [hr] at h
    simp only [List.head?_cons, Option.some.injEq] at h
    subst h
    rw [hr] at hs
    have hhead : (cs.dropWhile (fun c => c == '-')).head? = some '-' := by
      rw [← hs]
      rfl
    have := head_dropWhile_not (fun c => c == '-') cs '-' hhead
    simp at this

theorem stripHyphens_getLast (cs : List Char) :
    (stripHyphens cs).getLast? ≠ some '-' := by
  unfold stripHyphens List.rdropWhile
  intro h
  rw [List.getLast?_reverse] at h
  have := head_dropWhile_not (fun c => c == '-') _ '-' h
  simp at this

theorem collapse_append_good :
    ∀ (u v : List Char), (∀ c ∈ u, isSlugChar c = true) →
      collapse false (u ++ v) = u ++ collapse false v := by
  intro u
  induction u with
  | nil => intro v _; rfl
  | cons x xs ih =>
    intro v hu
    have hx := hu x (List.mem_cons_self _ _)
    simp only [List.cons_append, collapse, if_pos hx, List.append_eq]
    rw [ih v (fun c hc => hu c (List.mem_cons_of_mem _ hc))]

theorem collapse_true_eq_dropWhile :
    ∀ (v : List Char), collapse true v
      = collapse false (v.dropWhile (fun c => !(isSlugChar c))) := by
  intro v
  induction v with
  | nil => rfl
  | cons x xs ih =>
    by_cases hx : isSlugChar x = true
    · rw [List.dropWhile_cons, if_neg (by simp [hx])]
      simp only [collapse, if_pos hx]
    · have hx' : isSlugChar x = false := Bool.eq_false_iff.mpr hx
      rw [List.dropWhile_cons, if_pos (by simp [hx'])]
      simp only [collapse, if_neg hx, if_pos rfl]
      exact ih

theorem collapse_true_skip (v : List Char) :
    ∀ (r : List Char), (∀ c ∈ r, isSlugChar c = false) →
      collapse true (r ++ v) = collapse true v := by
  intro r
  induction r with
  | nil => intro _; rfl
  | cons y ys ih =>
    intro hr
    have hy := hr y (List.mem_cons_self _ _)
    simp only [List.cons_append, collapse, hy, Bool.false_eq_true, if_false,
      if_pos rfl]
    exact ih (fun c hc => hr c (List.mem_cons_of_mem _ hc))

theorem collapse_bad_run (run v : List Char) (hne : run ≠ [])
    (hbad : ∀ c ∈ run, isSlugChar c = false) :
    collapse false (run ++ v)
      = '-' :: collapse false (v.dropWhile (fun c => !(isSlugChar c))) := by
  cases run with
  | nil => exact absurd rfl hne
  | cons b rest =>
    have hb : isSlugChar b = false := hbad b (List.mem_cons_self _ _)
    simp only [List.cons_append, collapse, hb, Bool.false_eq_true, if_false,
      List.append_eq]
    rw [collapse_true_skip v rest (fun c hc => hbad c (List.mem_cons_of_mem _ hc)),
      collapse_true_eq_dropWhile]

/-! ## Claim C7: computeDomain -/

/-- Claim C7 counterexample: the empty string is an explicit domain that is
not returned unchanged — `computeDomain` falls through to the slug path
because the source's `if (options.domain)` is a truthiness test. -/
theorem computeDomain_empty_counterexample :
    computeDomain (some "") none none ⟨"My App!", none⟩ = "my-app.localhost"
    ∧ computeDomain (some "") none none ⟨"My App!", none⟩ ≠ "" := by
  constructor <;> decide

/-- Claim C7 (amended): a nonempty explicit domain is returned unchanged
regardless of `nameSource`, `tld` and the environment, and with no
explicit domain the result is the slug joined to the (defaulted) TLD;
determinism is inherent in the embedding (`computeDomain` is a function
of exactly these inputs). -/
theorem computeDomain_spec (d : String) (ns ns' : Option NameSource)
    (tld tld' : Option String) (env env' : DomainEnv) (hd : d ≠ "") :
    computeDomain (some d) ns tld env = d
    ∧ computeDomain (some d) ns' tld' env' = computeDomain (some d) ns tld env
    ∧ computeDomain none ns tld env
        = (match ns.getD NameSource.folder with
           | NameSource.pkg => slugFromPkg env
           | NameSource.folder => slugFromFolder env.folderName)
          ++ "." ++ tld.getD "localhost" := by
  refine ⟨?_, ?_, rfl⟩
  · simp [computeDomain, hd]
  · simp [computeDomain, hd]

/-- Claim C7 witness. -/
theorem computeDomain_spec_witness :
    computeDomain (some "app.localhost") none none ⟨"x", none⟩ = "app.localhost" :=
  (computeDomain_spec "app.localhost" none none none none ⟨"x", none⟩ ⟨"y", none⟩
    (by decide)).1

/-! ## Claim C8: slugFromFolder -/

/-- Claim C8: every slug character is in `[a-z0-9-]` (in particular the
slug is lowercase), the slug has no leading or trailing hyphen, the two
spec examples hold, runs of in-class characters pass through unchanged,
and every nonempty run of out-of-class characters becomes a single
hyphen. -/
theorem slugFromFolder_spec :
    (∀ s : String, ∀ c ∈ (slugFromFolder s).data, isSlugChar c = true)
    ∧ (∀ s : String, (slugFromFolder s).data.head? ≠ some '-'
        ∧ (slugFromFolder s).data.getLast? ≠ some '-')
    ∧ slugFromFolder "My App!" = "my-app"
    ∧ slugFromFolder "***x---y***" = "x---y"
    ∧ (∀ u v : List Char, (∀ c ∈ u, isSlugChar c = true) →
        collapse false (u ++ v) = u ++ collapse false v)
    ∧ (∀ run v : List Char, run ≠ [] → (∀ c ∈ run, isSlugChar c = false) →
        collapse false (run ++ v)
          = '-' :: collapse false (v.dropWhile (fun c => !(isSlugChar c)))) := by
  refine ⟨?_, ?_, by decide, by decide, collapse_append_good, collapse_bad_run⟩
  · intro s c hc
    exact mem_collapse _ _ _ (stripHyphens_subset _ _ hc)
  · intro s
    exact ⟨stripHyphens_head _, stripHyphens_getLast _⟩

/-- Claim C8 witness. -/
theorem slugFromFolder_spec_witness :
    collapse false (['!', '?'] ++ ['a']) =
      '-' :: collapse false (['a'].dropWhile (fun c => !(isSlugChar c))) :=
  slugFromFolder_spec.2.2.2.2.2 ['!', '?'] ['a'] (by decide) (by decide)

/-! ## Claim C6: admin API primitives -/

/-- Claim C6 counterexample: the error raised by the mutating primitive
does not capture the HTTP method — a failed `POST` and a failed `PUT` to
the same URL with the same response produce identical outcomes, so the
method is not recoverable from the error. -/
theorem req_method_counterexample :
    reqFn "POST" "http://127.0.0.1:2019/load"
        ⟨500, "Internal Server Error", "boom"⟩
      = reqFn "PUT" "http://127.0.0.1:2019/load"
        ⟨500, "Internal Server Error", "boom"⟩
    ∧ reqFn "POST" "http://127.0.0.1:2019/load"
        ⟨500, "Internal Server Error", "boom"⟩
      = Except.error
          "HTTP 500 Internal Server Error for http://127.0.0.1:2019/load\nboom" := by
  constructor <;> rfl

/-- Claim C6 (amended): on a non-success status the read primitive
returns the absent sentinel without raising, while the mutating primitive
raises an error capturing the path (URL), status, status text and
response body — but not the method; on a successful call an empty body
decodes to the absent sentinel. -/
theorem adminPrimitives_spec (method url : String) (r : HttpResponse)
    (h : respOk r = false) :
    getFn url r = .ok none
    ∧ reqFn method url r = .error (reqErrorText url r)
    ∧ (∀ r' : HttpResponse, respOk r' = true → r'.body = "" →
        reqFn method url r' = .ok none ∧ getFn url r' = .ok none) := by
  refine ⟨by simp [getFn, h], by simp [reqFn, h], ?_⟩
  intro r' hok hbody
  constructor <;> simp [reqFn, getFn, hok, hbody, decodeBody]

/-- Claim C6 witness. -/
theorem adminPrimitives_spec_witness :
    getFn "http://127.0.0.1:2019/config/" ⟨404, "Not Found", "x"⟩ = .ok none :=
  (adminPrimitives_spec "GET" "http://127.0.0.1:2019/config/"
    ⟨404, "Not Found", "x"⟩ (by decide)).1

/-! ## Claim C10: the liveness probe resolves exactly once -/

theorem probe_frozen (evs : List ProbeEv) :
    ∀ (s : ProbeState), s.resolved = true →
      (evs.foldl probeStep s).result = s.result
      ∧ (evs.foldl probeStep s).resolveCount = s.resolveCount := by
  induction evs with
  | nil => intro s _; exact ⟨rfl, rfl⟩
  | cons e evs ih =>
    intro s h
    have hstep : (probeStep s e).result = s.result
        ∧ (probeStep s e).resolveCount = s.resolveCount
        ∧ (probeStep s e).resolved = true := by
      cases e <;> simp [probeStep, probeDone, h]
    have := ih (probeStep s e) hstep.2.2
    simp only [List.foldl_cons]
    exact ⟨this.1.trans hstep.1, this.2.trans hstep.2.1⟩

theorem probe_connClosed_mono (evs : List ProbeEv) :
    ∀ (s : ProbeState), s.connClosed = true →
      (evs.foldl probeStep s).connClosed = true := by
  induction evs with
  | nil => intro s h; exact h
  | cons e evs ih =>
    intro s h
    have hstep : (probeStep s e).connClosed = true := by
      cases e <;> simp only [probeStep, probeDone] <;> (repeat' split) <;>
        simp [h]
    simp only [List.foldl_cons]
    exact ih _ hstep

/-- Claim C10: under every interleaving of the timer callback and the
connection callbacks, the probe resolves exactly once — `true` exactly
when the connection success callback runs first (in which case the
connection is also closed), `false` when a connection error or the
timeout comes first; no interleaving rejects (the model has no rejected
outcome: the `catch` handler folds every error into `done(false)`). -/
theorem isPortActive_spec (evs : List ProbeEv) (h : evs ≠ []) :
    (runProbe evs).resolveCount = 1
    ∧ (runProbe evs).result = some (evs.head? == some ProbeEv.connOk)
    ∧ (evs.head? = some ProbeEv.connOk → (runProbe evs).connClosed = true) := by
  cases evs with
  | nil => exact absurd rfl h
  | cons e rest =>
    have hres : (probeStep probeInit e).resolved = true := by
      cases e <;> simp [probeStep, probeDone, probeInit]
    have hfrozen := probe_frozen rest (probeStep probeInit e) hres
    refine ⟨?_, ?_, ?_⟩
    · rw [runProbe, List.foldl_cons, hfrozen.2]
      cases e <;> rfl
    · rw [runProbe, List.foldl_cons, hfrozen.1]
      cases e <;> rfl
    · intro hhead
      simp only [List.head?_cons, Option.some.injEq] at hhead
      subst hhead
      rw [runProbe, List.foldl_cons]
      exact probe_connClosed_mono rest _ (by simp [probeStep, probeDone, probeInit])

/-- Claim C10 witness. -/
theorem isPortActive_spec_witness :
    (runProbe [ProbeEv.connOk]).resolveCount = 1 :=
  (isPortActive_spec [ProbeEv.connOk] (by simp)).1

/-! ## Helper lemmas: decimal printing round-trips with the port regex -/

theorem toDigitsCore_eq_myDigits :
    ∀ (fuel n : Nat) (acc : List Char), n < fuel →
      Nat.toDigitsCore 10 fuel n acc = myDigits n ++ acc := by
  intro fuel
  induction fuel with
  | zero => intro n acc h; omega
  | succ fuel ih =>
    intro n acc h
    rw [Nat.toDigitsCore]
    by_cases h10 : n / 10 = 0
    · rw [if_pos h10]
      have hn : n < 10 := by
        by_contra hge
        have := Nat.div_le_div_right (c := 10) (by omega : 10 ≤ n)
        simp at this
        omega
      conv_rhs => rw [myDigits, if_pos hn]
      rw [Nat.mod_eq_of_lt hn]
      rfl
    · rw [if_neg h10]
      have hge : 10 ≤ n := by
        by_contra hlt
        exact h10 (Nat.div_eq_of_lt (by omega))
      have hlt : n / 10 < fuel :=
        lt_of_lt_of_le (Nat.div_lt_self (by omega) (by omega)) (by omega)
      rw [ih (n / 10) _ hlt]
      conv_rhs => rw [myDigits, if_neg (by omega)]
      simp

theorem repr_data_eq_myDigits (n : Nat) : (Nat.repr n).data = myDigits n := by
  show (Nat.toDigits 10 n).asString.data = myDigits n
  rw [Nat.toDigits, toDigitsCore_eq_myDigits (n + 1) n [] (by omega)]
  simp [List.asString]

theorem myDigits_digits (n : Nat) : ∀ c ∈ myDigits n, c.isDigit = true := by
  induction n using Nat.strong_induction_on with
  | _ n ih =>
    by_cases h : n < 10
    · rw [myDigits, if_pos h]
      intro c hc
      simp only [List.mem_singleton] at hc
      subst hc
      interval_cases n <;> decide
    · rw [myDigits, if_neg h]
      intro c hc
      rcases List.mem_append.mp hc with h1 | h1
      · exact ih (n / 10) (Nat.div_lt_self (by omega) (by omega)) c h1
      · simp only [List.mem_singleton] at h1
        subst h1
        have hm : n % 10 < 10 := Nat.mod_lt _ (by omega)
        set m := n % 10 with hmdef
        interval_cases m <;> decide

theorem digitsVal_append (xs : List Char) (c : Char) :
    digitsVal (xs ++ [c]) = digitsVal xs * 10 + (c.toNat - 48) := by
  simp [digitsVal, List.foldl_append]

theorem digitsVal_myDigits (n : Nat) : digitsVal (myDigits n) = n := by
  induction n using Nat.strong_induction_on with
  | _ n ih =>
    by_cases h : n < 10
    · rw [myDigits, if_pos h]
      interval_cases n <;> decide
    · rw [myDigits, if_neg h]
      rw [digitsVal_append, ih (n / 10) (Nat.div_lt_self (by omega) (by omega))]
      have h1 : n % 10 < 10 := Nat.mod_lt _ (by omega)
      have h2 : (Nat.digitChar (n % 10)).toNat - 48 = n % 10 := by
        set m := n % 10 with hmdef
        interval_cases m <;> decide
      rw [h2]
      omega

theorem myDigits_ne_nil (n : Nat) : myDigits n ≠ [] := by
  rw [myDigits]
  by_cases h : n < 10
  · rw [if_pos h]; simp
  · rw [if_neg h]; simp

theorem isDigit_not_ws (c : Char) (h : c.isDigit = true) :
    ¬ c.isWhitespace = true := by
  intro hw
  simp only [Char.isWhitespace, Bool.or_eq_true, decide_eq_true_eq] at hw
  rcases hw with ((rfl | rfl) | rfl) | rfl <;> revert h <;> decide

/-- The trailing-port regex recovers the port from a freshly built dial
string `127.0.0.1:{port}`. -/
theorem parseTrailingPort_dial (p : Nat) :
    parseTrailingPort ("127.0.0.1:" ++ toString p) = some p := by
  have hdata : ("127.0.0.1:" ++ toString p).data
      = "127.0.0.1:".data ++ myDigits p := by
    rw [String.data_append]
    congr 1
    exact repr_data_eq_myDigits p
  obtain ⟨ds', dlast, hsplit⟩ :
      ∃ ds' dlast, myDigits p = ds' ++ [dlast] := by
    rcases List.eq_nil_or_concat (myDigits p) with h | ⟨ds', dlast, h⟩
    · exact absurd h (myDigits_ne_nil p)
    · exact ⟨ds', dlast, by simpa [List.concat_eq_append] using h⟩
  have hlastdigit : dlast.isDigit = true :=
    myDigits_digits p dlast (by rw [hsplit]; simp)
  have htrim : jsTrim ("127.0.0.1:" ++ toString p).data
      = "127.0.0.1:".data ++ myDigits p := by
    rw [hdata]
    unfold jsTrim
    have hdrop : (("127.0.0.1:".data ++ myDigits p).dropWhile Char.isWhitespace)
        = "127.0.0.1:".data ++ myDigits p := by
      rw [show ("127.0.0.1:".data ++ myDigits p)
          = '1' :: ("27.0.0.1:".data ++ myDigits p) from rfl]
      rw [List.dropWhile_cons, if_neg (by decide)]
    rw [hdrop, hsplit, ← List.append_assoc]
    exact List.rdropWhile_concat_neg _ _ _ (isDigit_not_ws dlast hlastdigit)
  have hrev : ("127.0.0.1:".data ++ myDigits p).reverse
      = (myDigits p).reverse ++ (':' :: "1.0.0.721".data) := by
    rw [List.reverse_append]
    congr 1
  have hds : ((myDigits p).reverse ++ (':' :: "1.0.0.721".data)).takeWhile
      Char.isDigit = (myDigits p).reverse := by
    rw [List.takeWhile_append]
    rw [List.takeWhile_eq_self_iff.mpr
      (fun x hx => myDigits_digits p x (List.mem_reverse.mp hx))]
    rw [if_pos rfl]
    rw [List.takeWhile_cons, if_neg (by decide)]
    simp
  unfold parseTrailingPort
  rw [htrim, hrev]
  unfold parsePortFrom
  rw [hds]
  rw [if_pos ⟨by simpa using myDigits_ne_nil p, by rw [List.drop_left]; rfl⟩]
  rw [List.reverse_reverse, digitsVal_myDigits]

/-! ## Claim C9: extractUpstreamPort round-trips with route construction -/

theorem extractLoop_none :
    ∀ (hs : List RouteHandler), (∀ h ∈ hs, h.handler ≠ "reverse_proxy") →
      extractLoop hs = none := by
  intro hs
  induction hs with
  | nil => intro _; rfl
  | cons h hs ih =>
    intro hh
    have hb : (h.handler == "reverse_proxy") = false :=
      beq_eq_false_iff_ne.mpr (hh h (List.mem_cons_self _ _))
    simp only [extractLoop, hb, Bool.false_eq_true, if_false]
    exact ih (fun x hx => hh x (List.mem_cons_of_mem _ hx))

/-- Claim C9: for every domain and port, the route built by
`addRoute`/`replaceRouteAt` (single host matcher, one reverse-proxy
handler dialing `127.0.0.1:{port}`, terminal) extracts back to exactly
that port; and a route none of whose handlers is a reverse proxy
extracts to `none`. -/
theorem extractUpstreamPort_roundtrip :
    (∀ (d : String) (p : Nat), extractUpstreamPort (routeFor d p) = some p)
    ∧ (∀ r : CaddyRoute,
        (∀ h ∈ r.handle.getD [], h.handler ≠ "reverse_proxy") →
        extractUpstreamPort r = none) := by
  constructor
  · intro d p
    have hne : (("127.0.0.1:" ++ toString p) == "") = false := by
      apply beq_eq_false_iff_ne.mpr
      intro h
      have hlen := congrArg String.length h
      rw [String.length_append] at hlen
      have h10 : ("127.0.0.1:").length = 10 := rfl
      have h0 : ("" : String).length = 0 := rfl
      omega
    simp only [extractUpstreamPort, routeFor, Option.getD_some, extractLoop,
      hne, Bool.false_eq_true, if_false, beq_self_eq_true, if_true]
    rw [parseTrailingPort_dial]
  · intro r hr
    exact extractLoop_none _ hr

/-- Claim C9 witness. -/
theorem extractUpstreamPort_roundtrip_witness :
    extractUpstreamPort (routeFor "app.localhost" 5173) = some 5173
    ∧ extractUpstreamPort
        ⟨some [⟨some ["app.localhost"]⟩], some [⟨"headers", none⟩], none⟩
      = none :=
  ⟨extractUpstreamPort_roundtrip.1 "app.localhost" 5173,
   extractUpstreamPort_roundtrip.2 _ (by decide)⟩

/-! ## Claim C1: stale routes are replaced in place -/

/-- Claim C1 counterexample: an existing route for `app.localhost` whose
upstream port `5173` is not alive and equals the current local port.  The
claim says the route is replaced at its position regardless of the
equality, which would canonicalize it (dropping its extra handler and
setting `terminal`); the code's `if (existingPort !== vitePort)` guard
(src/mod.ts line 738) skips the write, leaving the route list unchanged
and different from the claimed result. -/
theorem wireRoutes_replace_counterexample :
    wireRoutes false true (fun _ => false) "app.localhost" 5173
        (some [⟨some [⟨some ["app.localhost"]⟩],
               some [⟨"reverse_proxy", some [⟨"127.0.0.1:5173"⟩]⟩,
                     ⟨"headers", none⟩],
               none⟩])
      = (.wired,
         [⟨some [⟨some ["app.localhost"]⟩],
           some [⟨"reverse_proxy", some [⟨"127.0.0.1:5173"⟩]⟩,
                 ⟨"headers", none⟩],
           none⟩])
    ∧ [(⟨some [⟨some ["app.localhost"]⟩],
         some [⟨"reverse_proxy", some [⟨"127.0.0.1:5173"⟩]⟩,
               ⟨"headers", none⟩],
         none⟩ : CaddyRoute)]
      ≠ [routeFor "app.localhost" 5173] := by
  constructor <;> decide

/-- Claim C1 (amended): when the found route's extracted upstream port
`E` is nonzero and not alive, the reconciliation replaces the route at
its position with the canonical route for the current port `P` when
`E ≠ P`, and performs no write when `E = P` (the route already points at
`P`); either way the outcome is a successful wiring. -/
theorem wireRoutes_stale (fof ins : Bool) (alive : Nat → Bool)
    (domain : String) (vitePort : Nat) (routes : Option (List CaddyRoute))
    (i : Nat) (r : CaddyRoute) (e : Nat)
    (hfind : findRouteByHost routes domain = some (i, r))
    (hext : extractUpstreamPort r = some e) (he0 : e ≠ 0)
    (hdead : alive e = false) :
    wireRoutes fof ins alive domain vitePort routes
      = (.wired,
         if e = vitePort then routes.getD []
         else (routes.getD []).set i (routeFor domain vitePort)) := by
  unfold wireRoutes
  simp only [hfind, hext]
  rw [if_neg he0, hdead]
  by_cases hep : e = vitePort <;> simp [hep]

/-- Claim C1 witness. -/
theorem wireRoutes_stale_witness :
    wireRoutes false true (fun _ => false) "app.localhost" 5173
        (some [routeFor "app.localhost" 5174])
      = (.wired, [routeFor "app.localhost" 5173]) := by
  rw [wireRoutes_stale false true (fun _ => false) "app.localhost" 5173
    (some [routeFor "app.localhost" 5174]) 0 (routeFor "app.localhost" 5174)
    5174 (by decide) (by decide) (by decide) rfl]
  decide

/-! ## Claim C2: fail-fast conflict terminates the process -/

/-- Claim C2 counterexample: an existing route for `app.localhost` maps
to port `5174`, which is alive, while the local port is `5173` and the
fail-fast policy is on.  The claim says the core signals the conflict to
its caller and does not itself terminate the hosting process; the code
instead logs the error, best-effort closes the Vite server and calls
`Deno.exit(1)` (src/mod.ts lines 724-731) — modeled as the
`exitProcess 1` outcome.  The route list is indeed unchanged. -/
theorem wireRoutes_exit_counterexample :
    wireRoutes true true (fun _ => true) "app.localhost" 5173
        (some [routeFor "app.localhost" 5174])
      = (.exitProcess 1, [routeFor "app.localhost" 5174]) := by
  decide

/-- Claim C2 (amended): when the existing route's upstream port `E` is
alive, differs from the current port `P`, and fail-fast is on, the
reconciliation performs no route write (the route list is unchanged) but
does not signal the error to its caller: it terminates the hosting
process itself with exit code 1 (after logging and closing the local
server). -/
theorem wireRoutes_conflict_failfast (ins : Bool) (alive : Nat → Bool)
    (domain : String) (vitePort : Nat) (routes : Option (List CaddyRoute))
    (i : Nat) (r : CaddyRoute) (e : Nat)
    (hfind : findRouteByHost routes domain = some (i, r))
    (hext : extractUpstreamPort r = some e) (he0 : e ≠ 0)
    (halive : alive e = true) (hne : e ≠ vitePort) :
    wireRoutes true ins alive domain vitePort routes
      = (.exitProcess 1, routes.getD []) := by
  unfold wireRoutes
  simp only [hfind, hext]
  rw [if_neg he0, halive]
  simp [hne]

/-- Claim C2 witness. -/
theorem wireRoutes_conflict_failfast_witness :
    wireRoutes true false (fun _ => true) "b.localhost" 3000
        (some [routeFor "b.localhost" 3001])
      = (.exitProcess 1, [routeFor "b.localhost" 3001]) := by
  rw [wireRoutes_conflict_failfast false (fun _ => true) "b.localhost" 3000
    (some [routeFor "b.localhost" 3001]) 0 (routeFor "b.localhost" 3001) 3001
    (by decide) (by decide) (by decide) rfl (by decide)]
  rfl

/-! ## Helper lemmas: the configuration tree and the bootstrap -/

theorem getServer_modifyServer (c : Config) (id : String)
    (f : CaddyServer → CaddyServer) :
    getServer (modifyServer c id f) id = (getServer c id).map f := by
  obtain ⟨apps⟩ := c
  cases apps with
  | none => rfl
  | some a =>
    obtain ⟨http, tls⟩ := a
    cases http with
    | none => rfl
    | some h =>
      obtain ⟨servers⟩ := h
      cases servers with
      | none => rfl
      | some m =>
        simp only [modifyServer, modifyApps, getServer, Option.map_some,
          Option.bind_some, Option.map]
        exact lookup_map_update f id m

theorem getServer_ensureTlsContainers (c : Config) (id : String) :
    getServer (ensureTlsContainers c) id = getServer c id := by
  obtain ⟨apps⟩ := c
  cases apps with
  | none => rfl
  | some a =>
    obtain ⟨http, tls⟩ := a
    cases tls with
    | none => rfl
    | some t =>
      obtain ⟨auto⟩ := t
      cases auto with
      | none => rfl
      | some au =>
        obtain ⟨pol⟩ := au
        cases pol with
        | none => rfl
        | some ps => rfl

theorem getServer_ensureTlsAppend (d : String) (c : Config) (id : String) :
    getServer (ensureTlsAppend d c) id = getServer c id := by
  unfold ensureTlsAppend
  by_cases h : ((getPolicies c).getD []).any (policyCovers d) = true
  · rw [if_pos h]
  · rw [if_neg h]
    obtain ⟨apps⟩ := c
    cases apps with
    | none => rfl
    | some a => rfl

theorem getServer_ensureTlsPolicyStep (d : String) (c : Config) (id : String) :
    getServer (ensureTlsPolicyStep d c) id = getServer c id := by
  unfold ensureTlsPolicyStep
  rw [getServer_ensureTlsAppend, getServer_ensureTlsContainers]

theorem getPolicies_ensureTlsContainers (c : Config) :
    getPolicies (ensureTlsContainers c) = some ((getPolicies c).getD []) := by
  obtain ⟨apps⟩ := c
  cases apps with
  | none => rfl
  | some a =>
    obtain ⟨http, tls⟩ := a
    cases tls with
    | none => rfl
    | some t =>
      obtain ⟨auto⟩ := t
      cases auto with
      | none => rfl
      | some au =>
        obtain ⟨pol⟩ := au
        cases pol with
        | none => rfl
        | some ps => rfl

theorem getPolicies_putPolicies (c : Config) (l : List TlsPolicy)
    (h : (getAutomation c).isSome = true) :
    getPolicies (putPolicies c l) = some l := by
  obtain ⟨apps⟩ := c
  cases apps with
  | none => simp [getAutomation, getTls] at h
  | some a =>
    obtain ⟨http, tls⟩ := a
    cases tls with
    | none => simp [getAutomation, getTls] at h
    | some t =>
      obtain ⟨auto⟩ := t
      cases auto with
      | none => simp [getAutomation, getTls] at h
      | some au => rfl

theorem ensureTlsContainers_id (c : Config) (ps : List TlsPolicy)
    (h : getPolicies c = some ps) : ensureTlsContainers c = c := by
  obtain ⟨apps⟩ := c
  cases apps with
  | none => simp [getPolicies, getAutomation, getTls] at h
  | some a =>
    obtain ⟨http, tls⟩ := a
    cases tls with
    | none => simp [getPolicies, getAutomation, getTls] at h
    | some t =>
      obtain ⟨auto⟩ := t
      cases auto with
      | none => simp [getPolicies, getAutomation, getTls] at h
      | some au =>
        obtain ⟨pol⟩ := au
        cases pol with
        | none => simp [getPolicies, getAutomation, getTls] at h
        | some ps' => rfl

/-- The freshly appended policy covers its own domain. -/
theorem policyCovers_new (d : String) :
    policyCovers d (newTlsPolicy d) = true := by
  simp only [policyCovers, newTlsPolicy, Bool.and_eq_true, List.any_cons,
    List.any_nil, Bool.or_eq_false_iff, Bool.or_eq_true]
  constructor
  · exact List.elem_iff.mpr (List.mem_singleton_self d)
  · left
    simp

theorem getPolicies_ensureTlsAppend (d : String) (c : Config)
    (ps : List TlsPolicy) (hps : getPolicies c = some ps) :
    getPolicies (ensureTlsAppend d c)
      = some (if ps.any (policyCovers d) then ps
              else ps ++ [newTlsPolicy d]) := by
  unfold ensureTlsAppend
  rw [hps]
  simp only [Option.getD_some]
  by_cases h : ps.any (policyCovers d) = true
  · rw [if_pos h, if_pos h, hps]
  · rw [if_neg h, if_neg h]
    apply getPolicies_putPolicies
    unfold getPolicies at hps
    cases hau : getAutomation c with
    | none => rw [hau] at hps; simp at hps
    | some au => simp

/-- Policy-list characterization of `ensureTlsPolicy`: the final policies
array is the initial one (defaulted to empty), with the fresh policy
appended exactly when no existing entry covers the domain. -/
theorem getPolicies_ensureTlsPolicyStep (d : String) (c : Config) :
    getPolicies (ensureTlsPolicyStep d c)
      = some (if ((getPolicies c).getD []).any (policyCovers d)
              then (getPolicies c).getD []
              else (getPolicies c).getD [] ++ [newTlsPolicy d]) := by
  unfold ensureTlsPolicyStep
  rw [getPolicies_ensureTlsAppend d _ _ (getPolicies_ensureTlsContainers c)]

/-- After `ensureTlsPolicy` some policy covers the domain. -/
theorem ensureTlsPolicyStep_covers (d : String) (c : Config) :
    ∃ ps', getPolicies (ensureTlsPolicyStep d c) = some ps'
      ∧ ps'.any (policyCovers d) = true := by
  refine ⟨_, getPolicies_ensureTlsPolicyStep d c, ?_⟩
  by_cases h : ((getPolicies c).getD []).any (policyCovers d) = true
  · rw [if_pos h]
    exact h
  · rw [if_neg h]
    rw [List.any_append]
    simp [policyCovers_new]

theorem ensureTlsPolicyStep_id (d : String) (c : Config) (ps : List TlsPolicy)
    (hps : getPolicies c = some ps) (hcov : ps.any (policyCovers d) = true) :
    ensureTlsPolicyStep d c = c := by
  unfold ensureTlsPolicyStep
  rw [ensureTlsContainers_id c ps hps]
  unfold ensureTlsAppend
  rw [hps]
  simp [hcov]

theorem mem_nextListen (x : String) (cur : Option (List String))
    (w : List String) :
    x ∈ nextListen cur w ↔ x ∈ cur.getD [] ∨ x ∈ w := by
  unfold nextListen
  rw [mem_jsDedup, List.mem_append, mem_jsDedup]

theorem nextListen_stable_self (w : List String) (hnd : w.Nodup) :
    nextListen (some w) w = w := by
  unfold nextListen
  simp only [Option.getD_some]
  exact jsDedup_absorb w (jsDedup w) hnd (fun x hx => (mem_jsDedup x w).mp hx)

theorem nextListen_idem (cur : Option (List String)) (w : List String) :
    nextListen (some (nextListen cur w)) w = nextListen cur w := by
  conv_lhs => unfold nextListen
  simp only [Option.getD_some]
  apply jsDedup_absorb
  · exact nodup_jsDedup _
  · intro x hx
    rw [mem_jsDedup]
    exact List.mem_append.mpr (Or.inr hx)

/-- Shape of the server entry after the existing-server refresh: the
listen list is written back exactly when the merge changed it, routes
are untouched, and an explicitly disabled automatic-HTTPS flag is
cleared. -/
theorem refreshServer_shape (o : Opts) (c : Config) (srv : CaddyServer)
    (h : getServer c o.serverId = some srv) :
    getServer (refreshServer o c srv) o.serverId
      = some (refreshedServer o srv) := by
  unfold refreshServer refreshAuto refreshedServer
  obtain ⟨slst, srts, sauto⟩ := srv
  by_cases harr : arraysEqual ((CaddyServer.mk slst srts sauto).listen.getD [])
      (nextListen (CaddyServer.mk slst srts sauto).listen o.listen) = true
  · rw [if_pos harr, if_pos harr]
    cases sauto with
    | none => simp [h]
    | some a =>
      by_cases hd : a.disable = some true
      · simp [hd, getServer_modifyServer, h]
      · simp [hd, h]
  · rw [if_neg harr, if_neg harr]
    cases sauto with
    | none => simp [getServer_modifyServer, h]
    | some a =>
      by_cases hd : a.disable = some true
      · simp [hd, getServer_modifyServer, h]
      · simp [hd, getServer_modifyServer, h]

theorem getServer_createServerPath (o : Opts) (c : Config) :
    getServer (createServerPath o c) o.serverId
      = some { listen := some o.listen, routes := some []
               automaticHttps := none } := by
  obtain ⟨apps⟩ := c
  cases apps with
  | none =>
    simp [createServerPath, modifyApps, putServer, getServer, setAssoc,
      List.lookup_cons]
  | some a =>
    obtain ⟨http, tls⟩ := a
    cases http with
    | none =>
      simp [createServerPath, modifyApps, putServer, getServer, setAssoc,
        List.lookup_cons]
    | some h =>
      obtain ⟨servers⟩ := h
      cases servers with
      | none =>
        simp [createServerPath, modifyApps, putServer, getServer, setAssoc,
          List.lookup_cons]
      | some m =>
        simp [createServerPath, modifyApps, putServer, getServer,
          lookup_setAssoc]

theorem getServer_seedConfig (o : Opts) (d : String) :
    getServer (seedConfig o d) o.serverId
      = some { listen := some o.listen, routes := some []
               automaticHttps := none } := by
  simp [seedConfig, getServer, List.lookup_cons]

/-! ## Claim C4: ensureTlsPolicy appends exactly when no entry covers -/

/-- Claim C4 counterexample: a starting policies list that already holds
two entries covering the domain.  `ensureTlsPolicy` appends nothing and
preserves both, so after the call two policies — not exactly one —
reference the domain with the internal issuer. -/
theorem ensureTlsPolicy_exactlyOne_counterexample :
    ((getPolicies (ensureTlsPolicyStep "app.localhost"
        ⟨some ⟨none, some ⟨some ⟨some [newTlsPolicy "app.localhost",
                                       newTlsPolicy "app.localhost"]⟩⟩⟩⟩)).getD
      []).countP (fun p => policyCovers "app.localhost" p) = 2 := by
  decide

/-- Claim C4 (amended): for every starting policies list, `ensureTlsPolicy`
appends `{subjects: [domain], issuers: [{module: "internal"}]}` if and
only if no existing entry covers the domain; all pre-existing entries are
preserved unchanged and in order (the initial list is a prefix of the
final one), so after the call at least one policy references the domain
with the internal issuer (exactly one when the starting list had at most
one). -/
theorem ensureTlsPolicy_spec (d : String) (c : Config) (ps : List TlsPolicy)
    (h : getPolicies c = some ps) :
    getPolicies (ensureTlsPolicyStep d c)
      = some (if ps.any (policyCovers d) then ps else ps ++ [newTlsPolicy d])
    ∧ ps <+: (if ps.any (policyCovers d) then ps else ps ++ [newTlsPolicy d])
    ∧ ∃ p ∈ (if ps.any (policyCovers d) then ps else ps ++ [newTlsPolicy d]),
        policyCovers d p = true := by
  refine ⟨?_, ?_, ?_⟩
  · rw [getPolicies_ensureTlsPolicyStep d c, h]
    rfl
  · by_cases hany : ps.any (policyCovers d) = true
    · rw [if_pos hany]
    · rw [if_neg hany]
      exact List.prefix_append ps _
  · by_cases hany : ps.any (policyCovers d) = true
    · rw [if_pos hany]
      obtain ⟨p, hp, hc⟩ := List.any_eq_true.mp hany
      exact ⟨p, hp, hc⟩
    · rw [if_neg hany]
      exact ⟨newTlsPolicy d, by simp, policyCovers_new d⟩

/-- Claim C4 witness. -/
theorem ensureTlsPolicy_spec_witness :
    getPolicies (ensureTlsPolicyStep "app.localhost"
        ⟨some ⟨none, some ⟨some ⟨some []⟩⟩⟩⟩)
      = some (if ([] : List TlsPolicy).any (policyCovers "app.localhost")
              then ([] : List TlsPolicy)
              else [] ++ [newTlsPolicy "app.localhost"]) :=
  (ensureTlsPolicy_spec "app.localhost" ⟨some ⟨none, some ⟨some ⟨some []⟩⟩⟩⟩
    [] rfl).1

/-! ## Claim C5: the listen merge is an additive union -/

/-- Claim C5: when the managed server already exists, the refresh leaves
it with a listen list equal to the deduplicating union of the current
and desired addresses — every current address is retained, every desired
address is present, nothing else appears — the field is written only
when that union differs elementwise from the current list, and the
route list of the server is untouched. -/
theorem bootstrap_listen_spec (o : Opts) (c : Config) (srv : CaddyServer)
    (h : getServer c o.serverId = some srv) :
    ∃ srv', getServer (refreshServer o c srv) o.serverId = some srv'
      ∧ srv'.listen.getD [] = nextListen srv.listen o.listen
      ∧ (∀ x ∈ srv.listen.getD [], x ∈ nextListen srv.listen o.listen)
      ∧ (∀ x ∈ o.listen, x ∈ nextListen srv.listen o.listen)
      ∧ (∀ x ∈ nextListen srv.listen o.listen,
          x ∈ srv.listen.getD [] ∨ x ∈ o.listen)
      ∧ (arraysEqual (srv.listen.getD []) (nextListen srv.listen o.listen)
            = true → srv'.listen = srv.listen)
      ∧ srv'.routes = srv.routes := by
  refine ⟨_, refreshServer_shape o c srv h, ?_, ?_, ?_, ?_, ?_, rfl⟩
  · dsimp only [refreshedServer]
    by_cases harr : arraysEqual (srv.listen.getD [])
        (nextListen srv.listen o.listen) = true
    · rw [if_pos harr]
      exact (arraysEqual_iff _ _).mp harr
    · rw [if_neg harr]
      rfl
  · intro x hx
    rw [mem_nextListen]
    exact Or.inl hx
  · intro x hx
    rw [mem_nextListen]
    exact Or.inr hx
  · intro x hx
    exact (mem_nextListen x _ _).mp hx
  · dsimp only [refreshedServer]
    intro harr
    rw [if_pos harr]

/-- Claim C5 witness. -/
theorem bootstrap_listen_spec_witness :
    ∃ srv', getServer (refreshServer ⟨"vite-dev", [":443", ":80"]⟩
        ⟨some ⟨some ⟨some [("vite-dev",
          ⟨some [":8080"], some [], none⟩)]⟩, none⟩⟩
        ⟨some [":8080"], some [], none⟩) "vite-dev" = some srv'
      ∧ srv'.listen.getD []
          = nextListen (some [":8080"]) [":443", ":80"]
      ∧ (∀ x ∈ (some [":8080"] : Option (List String)).getD [],
          x ∈ nextListen (some [":8080"]) [":443", ":80"])
      ∧ (∀ x ∈ [":443", ":80"],
          x ∈ nextListen (some [":8080"]) [":443", ":80"])
      ∧ (∀ x ∈ nextListen (some [":8080"]) [":443", ":80"],
          x ∈ (some [":8080"] : Option (List String)).getD []
            ∨ x ∈ [":443", ":80"])
      ∧ (arraysEqual ((some [":8080"] : Option (List String)).getD [])
            (nextListen (some [":8080"]) [":443", ":80"]) = true
          → srv'.listen = some [":8080"])
      ∧ srv'.routes = some [] :=
  bootstrap_listen_spec ⟨"vite-dev", [":443", ":80"]⟩
    ⟨some ⟨some ⟨some [("vite-dev", ⟨some [":8080"], some [], none⟩)]⟩, none⟩⟩
    ⟨some [":8080"], some [], none⟩ (by decide)

/-! ## Claim C3: the bootstrap is idempotent -/

/-- One bootstrap run establishes the invariant: the managed server
exists and would be left untouched by a refresh, and a covering TLS
policy exists. -/
theorem bootstrapped_after (o : Opts) (d : String) (root : Option Config)
    (hnd : o.listen.Nodup) :
    bootstrapped o d (ensureCaddyServerExists o d root) := by
  cases root with
  | none =>
    refine ⟨⟨⟨some o.listen, some [], none⟩, getServer_seedConfig o d,
      nextListen_stable_self o.listen hnd, ?_⟩,
      ⟨[newTlsPolicy d], rfl, ?_⟩⟩
    · intro a ha
      exact absurd ha (by simp)
    · simp [policyCovers_new]
  | some c =>
    simp only [ensureCaddyServerExists]
    cases hsrv : getServer c o.serverId with
    | none =>
      refine ⟨⟨⟨some o.listen, some [], none⟩, ?_,
        nextListen_stable_self o.listen hnd, ?_⟩,
        ensureTlsPolicyStep_covers d _⟩
      · rw [getServer_ensureTlsPolicyStep]
        exact getServer_createServerPath o c
      · intro a ha
        exact absurd ha (by simp)
    | some srv =>
      refine ⟨⟨refreshedServer o srv, ?_, ?_, ?_⟩,
        ensureTlsPolicyStep_covers d _⟩
      · rw [getServer_ensureTlsPolicyStep]
        exact refreshServer_shape o c srv hsrv
      · dsimp only [refreshedServer]
        by_cases harr : arraysEqual (srv.listen.getD [])
            (nextListen srv.listen o.listen) = true
        · rw [if_pos harr]
          exact ((arraysEqual_iff _ _).mp harr).symm
        · rw [if_neg harr]
          exact nextListen_idem srv.listen o.listen
      · dsimp only [refreshedServer]
        intro a ha
        cases hauto : srv.automaticHttps with
        | none =>
          rw [hauto] at ha
          simp at ha
        | some b =>
          rw [hauto] at ha
          by_cases hd : b.disable = some true
          · simp only [hd, if_pos rfl] at ha
            injection ha with hab
            rw [← hab]
            simp
          · simp only [if_neg hd] at ha
            injection ha with hab
            rw [← hab]
            exact hd

/-- A bootstrapped tree is a fixed point of the bootstrap. -/
theorem bootstrap_id (o : Opts) (d : String) (c : Config)
    (hb : bootstrapped o d c) : ensureCaddyServerExists o d (some c) = c := by
  obtain ⟨⟨srv, hsrv, hstable, hauto⟩, ⟨ps, hps, hcov⟩⟩ := hb
  simp only [ensureCaddyServerExists, hsrv]
  have h1 : refreshServer o c srv = c := by
    unfold refreshServer refreshAuto
    have harr : arraysEqual (srv.listen.getD [])
        (nextListen srv.listen o.listen) = true := by
      rw [hstable]
      exact arraysEqual_self _
    rw [if_pos harr]
    cases ha : srv.automaticHttps with
    | none => rfl
    | some a => simp [hauto a ha]
  rw [h1]
  exact ensureTlsPolicyStep_id d c ps hps hcov

/-- Claim C3: the bootstrap (`ensureCaddyServerExists`, which ends with
`ensureTlsPolicy`) is idempotent over every starting configuration tree:
a second run reproduces the tree of the first run exactly, so no
duplicate TLS policies and no duplicate listen entries appear.  The
desired listen list is assumed duplicate-free (as its default
`[":443", ":80"]` is); a duplicated desired address would be written
verbatim by the seeding run and deduplicated by the next. -/
theorem bootstrap_idempotent (o : Opts) (d : String) (root : Option Config)
    (hnd : o.listen.Nodup) :
    ensureCaddyServerExists o d (some (ensureCaddyServerExists o d root))
      = ensureCaddyServerExists o d root :=
  bootstrap_id o d _ (bootstrapped_after o d root hnd)

/-- Claim C3 witness. -/
theorem bootstrap_idempotent_witness :
    ensureCaddyServerExists ⟨"vite-dev", [":443", ":80"]⟩ "app.localhost"
        (some (ensureCaddyServerExists ⟨"vite-dev", [":443", ":80"]⟩
          "app.localhost" none))
      = ensureCaddyServerExists ⟨"vite-dev", [":443", ":80"]⟩
          "app.localhost" none :=
  bootstrap_idempotent ⟨"vite-dev", [":443", ":80"]⟩ "app.localhost" none
    (by decide)

end LocalCaddy
